import Mathlib

/-!
Shallow embedding of the `primitive_from` Rust crate (src/lib.rs).

The crate exposes a single trait

  pub trait PrimitiveFrom<T> { fn from(_:T) -> Self; }

implemented, via the macro `impl_primitive_from`, as the native `as` cast
`a as $T` for an explicitly enumerated table of (source, target) pairs of
primitive kinds.  We embed:

* `Kind` — the closed set of primitive kinds appearing in the macro lines;
  the pointer-sized kinds `usize`/`isize` are modelled at the common
  64-bit width.
* `supported` — the pair table, transcribed line by line from the fourteen
  `impl_primitive_from!` invocations.
* `primitiveFrom` — the value-level semantics of `a as T` per the Rust
  reference (current rustc, 1.45+): integer casts truncate to the target
  width and reinterpret in the target signedness; float → int casts
  saturate (truncate toward zero, clamp to the target range, NaN ↦ 0);
  int → float and f64 → f32 round to nearest, ties to even, with
  overflow to infinity; bool → int gives 0/1; char ↔ int via the code
  point; same-kind casts are no-ops.  Unsupported pairs yield `none`,
  modelling the fact that no trait impl exists (a compile-time rejection).

Floating-point values are modelled exactly as `m * 2^e` (sign carried in
`m`), plus infinities and NaN; the sign of zero is not tracked (no claim
depends on it).
-/

namespace PrimitiveFromSpec

/-- The closed set of primitive kinds named in `impl_primitive_from!` lines. -/
inductive Kind
  | u8 | i8 | u16 | i16 | u32 | i32 | u64 | i64 | usize | isize
  | f32 | f64 | bool | char
deriving DecidableEq, Repr, Fintype

/-- Bit width of the integer kinds (pointer-sized kinds modelled at 64 bits);
0 for non-integer kinds. -/
def width : Kind → Nat
  | .u8 => 8 | .i8 => 8
  | .u16 => 16 | .i16 => 16
  | .u32 => 32 | .i32 => 32
  | .u64 => 64 | .i64 => 64
  | .usize => 64 | .isize => 64
  | _ => 0

/-- Whether an integer kind is signed. -/
def signed : Kind → Bool
  | .i8 | .i16 | .i32 | .i64 | .isize => true
  | _ => false

/-- The ten integer kinds. -/
def Kind.isInt : Kind → Bool
  | .u8 | .i8 | .u16 | .i16 | .u32 | .i32 | .u64 | .i64 | .usize | .isize => true
  | _ => false

/-- The two floating-point kinds. -/
def Kind.isFloat : Kind → Bool
  | .f32 | .f64 => true
  | _ => false

/-- The numeric kinds: integers and floats (twelve in the source:
five unsigned, five signed, two floating-point). -/
def Kind.numeric (k : Kind) : Bool := k.isInt || k.isFloat

/-- Minimum value of an integer kind (`T::MIN`). -/
def kindMin (k : Kind) : Int :=
  if signed k then -(2 ^ (width k - 1)) else 0

/-- Maximum value of an integer kind (`T::MAX`). -/
def kindMax (k : Kind) : Int :=
  if signed k then 2 ^ (width k - 1) - 1 else 2 ^ width k - 1

/-- Integer value lies in the representable range of kind `k`. -/
def inRange (k : Kind) (v : Int) : Prop := kindMin k ≤ v ∧ v ≤ kindMax k

instance (k : Kind) (v : Int) : Decidable (inRange k v) := by
  unfold inRange; infer_instance

/-- Target list shared by the numeric-source macro lines:
`u8, i8, u16, i16, u32, i32, u64, isize, usize, i64, f32, f64`. -/
def numericTargets : List Kind :=
  [.u8, .i8, .u16, .i16, .u32, .i32, .u64, .isize, .usize, .i64, .f32, .f64]

/-- The pair table generated by the fourteen `impl_primitive_from!` macro
invocations in src/lib.rs, one match arm per source line. -/
def supported (s t : Kind) : Bool :=
  match s with
  | .u8 => t ∈ (Kind.char ::
      [Kind.u8, .i8, .u16, .i16, .u32, .i32, .u64, .isize, .usize, .i64, .f32, .f64])
  | .i8 | .u16 | .i16 | .u32 | .i32 | .u64 | .i64 | .usize | .isize =>
      t ∈ numericTargets
  | .f32 | .f64 => t ∈ numericTargets
  | .char => t ∈ (Kind.char ::
      [Kind.u8, .i8, .u16, .i16, .u32, .i32, .u64, .isize, .usize, .i64])
  | .bool => t ∈ ([Kind.u8, .i8, .u16, .i16, .u32, .i32, .u64, .isize, .usize, .i64] : List Kind)

/-- Integer-to-integer `as` cast semantics: keep the low `width t` bits and
reinterpret them in the signedness of `t` (Rust reference: truncation for
narrowing, sign/zero extension for widening, bit-pattern reinterpretation
at equal width — all are this one operation on the mathematical value). -/
def wrapTo (t : Kind) (v : Int) : Int :=
  let u := v % (2 ^ width t : Int)
  if signed t ∧ 2 ^ (width t - 1) ≤ u then u - 2 ^ width t else u

/-- Floating-point format: significand precision in bits, the exponent of
the least subnormal, and the largest canonical exponent. -/
structure FpFmt where
  prec : Nat
  emin : Int
  emax : Int

/-- IEEE binary32 (`f32`): max finite value (2^24-1)·2^104, least
subnormal 2^-149. -/
def fmt32 : FpFmt := ⟨24, -149, 104⟩

/-- IEEE binary64 (`f64`): max finite value (2^53-1)·2^971, least
subnormal 2^-1074. -/
def fmt64 : FpFmt := ⟨53, -1074, 971⟩

/-- A floating-point datum: a finite value `m * 2^e` (sign carried by `m`),
an infinity, or NaN. -/
inductive Fp
  | finite (m : Int) (e : Int)
  | inf (neg : Bool)
  | nan
deriving DecidableEq, Repr

/-- Canonical well-formedness of a finite value in a format: zero is
`finite 0 0`; a normal value has `2^(prec-1) ≤ |m| < 2^prec` and
`emin ≤ e ≤ emax`; a subnormal has `0 < |m| < 2^(prec-1)` at `e = emin`. -/
def Fp.wf (f : FpFmt) : Fp → Prop
  | .finite m e =>
      (m = 0 ∧ e = 0) ∨
      (2 ^ (f.prec - 1) ≤ m.natAbs ∧ m.natAbs < 2 ^ f.prec ∧ f.emin ≤ e ∧ e ≤ f.emax) ∨
      (0 < m.natAbs ∧ m.natAbs < 2 ^ (f.prec - 1) ∧ e = f.emin)
  | .inf _ => True
  | .nan => True

instance (f : FpFmt) (x : Fp) : Decidable (Fp.wf f x) := by
  cases x <;> unfold Fp.wf <;> infer_instance

/-- Truncation toward zero of a finite value `m * 2^e` (0 on non-finite). -/
def Fp.trunc : Fp → Int
  | .finite m e =>
      if 0 ≤ e then m * 2 ^ e.toNat
      else if m < 0 then -((m.natAbs / 2 ^ (-e).toNat : Nat) : Int)
      else ((m.natAbs / 2 ^ (-e).toNat : Nat) : Int)
  | _ => 0

/-- Fuel-bounded bit-length helper: with enough fuel, the number of binary
digits of `n`. -/
def bitLenAux : Nat → Nat → Nat
  | 0, _ => 0
  | _ + 1, 0 => 0
  | fuel + 1, n + 1 => bitLenAux fuel ((n + 1) / 2) + 1

/-- Number of binary digits of `n` (0 for 0); `n` itself is enough fuel. -/
def bitLen (n : Nat) : Nat := bitLenAux n n

/-- Round the positive value `n * 2^e` (`n > 0`) to format `f`, nearest,
ties to even, overflowing to `+∞`. -/
def roundPos (f : FpFmt) (n : Nat) (e : Int) : Fp :=
  let L : Int := bitLen n
  let e1 : Int := max (e + L - f.prec) f.emin
  if e1 ≤ e then
    if f.emax < e1 then .inf false
    else .finite (n * 2 ^ (e - e1).toNat) e1
  else
    let k := (e1 - e).toNat
    let q := n / 2 ^ k
    let r := n % 2 ^ k
    let half := 2 ^ (k - 1)
    let m1 := q + (if half < r ∨ (r = half ∧ q % 2 = 1) then 1 else 0)
    if m1 = 0 then .finite 0 0
    else if 2 ^ f.prec ≤ m1 then
      if f.emax < e1 + 1 then .inf false else .finite ((m1 / 2 : Nat) : Int) (e1 + 1)
    else
      if f.emax < e1 then .inf false else .finite (m1 : Int) e1

/-- Round an arbitrary datum to format `f`: nearest, ties to even,
overflow to the like-signed infinity, NaN and infinities preserved. -/
def roundToFormat (f : FpFmt) : Fp → Fp
  | .nan => .nan
  | .inf b => .inf b
  | .finite m e =>
      if m = 0 then .finite 0 0
      else
        match roundPos f m.natAbs e with
        | .finite m1 e1 => .finite (if m < 0 then -m1 else m1) e1
        | .inf _ => .inf (m < 0)
        | .nan => .nan

/-- Integer-to-float `as` cast: round the exact integer to the target
format, nearest, ties to even. -/
def intToFp (f : FpFmt) (n : Int) : Fp := roundToFormat f (.finite n 0)

/-- Float-to-integer `as` cast (Rust 1.45+ saturating semantics): NaN to 0,
infinities and out-of-range truncations clamp to the target bounds,
in-range values truncate toward zero. -/
def fpToIntCast (t : Kind) : Fp → Int
  | .nan => 0
  | .inf neg => if neg then kindMin t else kindMax t
  | .finite m e => max (kindMin t) (min (kindMax t) (Fp.trunc (.finite m e)))

/-- A runtime value of some primitive kind. -/
inductive Value
  | int (v : Int)
  | fp (x : Fp)
  | bool (b : Bool)
  | char (c : Nat)
deriving DecidableEq, Repr

/-- The float format of a float kind (dummy `fmt64` on other kinds). -/
def fmtOf : Kind → FpFmt
  | .f32 => fmt32
  | _ => fmt64

/-- Well-formedness of a value at a kind: integer kinds carry in-range
integers, float kinds carry canonical format values, `char` carries a
Unicode scalar value. -/
def Value.wf (k : Kind) : Value → Prop
  | .int v => k.isInt = true ∧ inRange k v
  | .fp x => k.isFloat = true ∧ x.wf (fmtOf k)
  | .bool _ => k = .bool
  | .char c => k = .char ∧ (c < 0xD800 ∨ (0xE000 ≤ c ∧ c < 0x110000))

instance (k : Kind) (v : Value) : Decidable (Value.wf k v) := by
  cases v <;> unfold Value.wf <;> infer_instance

/-- The embedding of `PrimitiveFrom::from`, converting a value of kind `s`
into kind `t`.  The macro expands every supported pair to the native cast
`a as $T`; `none` models the absence of a trait impl (the pair does not
compile). -/
def primitiveFrom (s t : Kind) (v : Value) : Option Value :=
  if supported s t = true then
    match v with
    | .int n =>
        if s.isInt then
          if t.isInt then some (.int (wrapTo t n))
          else if t.isFloat then some (.fp (intToFp (fmtOf t) n))
          else if t = .char then some (.char n.toNat)
          else none
        else none
    | .fp x =>
        if s.isFloat then
          if t.isInt then some (.int (fpToIntCast t x))
          else if t = s then some (.fp x)
          else if t.isFloat then some (.fp (roundToFormat (fmtOf t) x))
          else none
        else none
    | .bool b =>
        if t.isInt then some (.int (if b then 1 else 0)) else none
    | .char c =>
        if t = .char then some (.char c)
        else if t.isInt then some (.int (wrapTo t (c : Int)))
        else none
  else none

/-! Helper lemmas on the pair table and on integer wrapping. -/

/-- Every ordered pair of numeric kinds appears in the impl table. -/
theorem supported_numeric_total :
    ∀ s t : Kind, s.numeric = true → t.numeric = true → supported s t = true := by
  decide

/-- Every float-source, integer-target pair appears in the impl table. -/
theorem supported_float_int :
    ∀ s t : Kind, s.isFloat = true → t.isInt = true → supported s t = true := by
  decide

/-- Every integer target is reachable from `bool` in the impl table. -/
theorem supported_bool_int :
    ∀ t : Kind, t.isInt = true → supported Kind.bool t = true := by
  decide

/-- Integer kinds are numeric. -/
theorem numeric_of_isInt : ∀ k : Kind, k.isInt = true → k.numeric = true := by
  decide

/-- Float kinds are numeric. -/
theorem numeric_of_isFloat : ∀ k : Kind, k.isFloat = true → k.numeric = true := by
  decide

/-- Float kinds are not integer kinds. -/
theorem isInt_eq_false_of_isFloat : ∀ k : Kind, k.isFloat = true → k.isInt = false := by
  decide

/-- Every integer kind has a nonempty range. -/
theorem kindMin_le_kindMax : ∀ t : Kind, kindMin t ≤ kindMax t := by
  decide

/-- Wrapping depends on the argument only through its residue modulo the
target width. -/
theorem wrapTo_eq_of_emod_eq (t : Kind) (u v : Int)
    (h : u % (2 ^ width t : Int) = v % (2 ^ width t : Int)) :
    wrapTo t u = wrapTo t v := by
  simp only [wrapTo, h]

/-- Wrapping changes a value by a multiple of `2 ^ width t`. -/
theorem wrapTo_sub_dvd (t : Kind) (v : Int) :
    (2 ^ width t : Int) ∣ v - wrapTo t v := by
  simp only [wrapTo]
  split
  · refine ⟨v / 2 ^ width t + 1, ?_⟩
    rw [Int.emod_def]; ring
  · refine ⟨v / 2 ^ width t, ?_⟩
    rw [Int.emod_def]; ring

/-- Wrapping preserves the low-order bits: the result is congruent to the
input modulo `2 ^ width t`. -/
theorem wrapTo_emod_self (t : Kind) (v : Int) :
    wrapTo t v % (2 ^ width t : Int) = v % (2 ^ width t : Int) := by
  obtain ⟨k, hk⟩ := wrapTo_sub_dvd t v
  have hw : wrapTo t v = v - 2 ^ width t * k := by omega
  rw [hw, Int.sub_emod, Int.mul_emod_right, sub_zero,
    Int.emod_emod_of_dvd v dvd_rfl]

/-- Wrapping lands in the target kind's range. -/
theorem wrapTo_inRange (t : Kind) (v : Int) : inRange t (wrapTo t v) := by
  unfold inRange kindMin kindMax
  cases t <;>
    simp only [wrapTo, width, signed, Bool.false_eq_true, false_and,
      true_and, if_false, if_true] <;> omega

/-- Wrapping is the identity on in-range values. -/
theorem wrapTo_id (t : Kind) (v : Int) (h : inRange t v) : wrapTo t v = v := by
  unfold inRange kindMin kindMax at h
  cases t <;>
    simp only [wrapTo, width, signed, Bool.false_eq_true, false_and,
      true_and, if_false, if_true] at h ⊢ <;> omega

/-- Wrapping to a narrower-or-equal width after wrapping to a wider width
is wrapping to the narrow width directly. -/
theorem wrapTo_wrapTo (s t : Kind) (hws : width s ≤ width t) (v : Int) :
    wrapTo s (wrapTo t v) = wrapTo s v := by
  apply wrapTo_eq_of_emod_eq
  obtain ⟨k, hk⟩ := wrapTo_sub_dvd t v
  have hw : wrapTo t v = v - 2 ^ width t * k := by omega
  have hd : (2 ^ width s : Int) ∣ 2 ^ width t * k :=
    Dvd.dvd.mul_right (pow_dvd_pow 2 hws) k
  rw [hw, Int.sub_emod, Int.emod_eq_zero_of_dvd hd, sub_zero,
    Int.emod_emod_of_dvd v dvd_rfl]

/-- The cast between two integer kinds is the wrap of the value. -/
theorem primitiveFrom_int_int (s t : Kind) (hs : s.isInt = true)
    (ht : t.isInt = true) (v : Int) :
    primitiveFrom s t (.int v) = some (.int (wrapTo t v)) := by
  have hsup : supported s t = true :=
    supported_numeric_total s t (numeric_of_isInt s hs) (numeric_of_isInt t ht)
  simp [primitiveFrom, hsup, hs, ht]

/-! Claim theorems. -/

/-- C2: the conversion relation restricted to the numeric kinds is total —
every ordered pair of numeric kinds (self-pairs included) has an impl in
the table — and on every well-formed value of the source kind the (pure)
conversion function is defined. -/
theorem numeric_conversion_total (s t : Kind) (hs : s.numeric = true)
    (ht : t.numeric = true) :
    supported s t = true ∧
    ∀ v : Value, v.wf s → (primitiveFrom s t v).isSome = true := by
  have hsup := supported_numeric_total s t hs ht
  refine ⟨hsup, ?_⟩
  intro v hv
  cases v with
  | int n =>
      have hsi : s.isInt = true := hv.1
      cases hti : t.isInt with
      | true => simp [primitiveFrom, hsup, hsi, hti]
      | false =>
          have htf : t.isFloat = true := by
            have h := ht
            simp [Kind.numeric, hti] at h
            exact h
          simp [primitiveFrom, hsup, hsi, hti, htf]
  | fp x =>
      have hsf : s.isFloat = true := hv.1
      cases hti : t.isInt with
      | true => simp [primitiveFrom, hsup, hsf, hti]
      | false =>
          have htf : t.isFloat = true := by
            have h := ht
            simp [Kind.numeric, hti] at h
            exact h
          have hsi := isInt_eq_false_of_isFloat s hsf
          by_cases hts : t = s
          · subst hts; simp [primitiveFrom, hsup, hsf, hti, hsi]
          · simp [primitiveFrom, hsup, hsf, hti, htf, hts, hsi]
  | bool b =>
      have hb : s = Kind.bool := hv
      rw [hb] at hs
      simp [Kind.numeric, Kind.isInt, Kind.isFloat] at hs
  | char c =>
      have hc : s = Kind.char := hv.1
      rw [hc] at hs
      simp [Kind.numeric, Kind.isInt, Kind.isFloat] at hs

/-- Witness for C2 at the self-pair (u8, u8) and the value 0. -/
theorem numeric_conversion_total_witness :
    supported Kind.u8 Kind.u8 = true ∧
    (primitiveFrom Kind.u8 Kind.u8 (.int 0)).isSome = true :=
  ⟨(numeric_conversion_total Kind.u8 Kind.u8 rfl rfl).1,
    (numeric_conversion_total Kind.u8 Kind.u8 rfl rfl).2 (.int 0) (by decide)⟩

/-- C3: casting between integer kinds with a strictly narrower target
wraps: the impl is defined, and the result is the unique in-range value of
the target kind congruent to the input modulo `2 ^ width t` — the
low-order target-width bits, not a checked or saturating conversion. -/
theorem narrowing_int_cast_wraps (s t : Kind) (hs : s.isInt = true)
    (ht : t.isInt = true) (hw : width t < width s) (v : Int)
    (hv : inRange s v) :
    primitiveFrom s t (.int v) = some (.int (wrapTo t v)) ∧
    wrapTo t v % (2 ^ width t : Int) = v % (2 ^ width t : Int) ∧
    inRange t (wrapTo t v) :=
  ⟨primitiveFrom_int_int s t hs ht v, wrapTo_emod_self t v, wrapTo_inRange t v⟩

/-- Witness for C3: the 16-bit value 768 casts to u8 as 0 (768 mod 256). -/
theorem narrowing_int_cast_wraps_witness :
    primitiveFrom Kind.i16 Kind.u8 (.int 768) = some (.int 0) := by
  have h := narrowing_int_cast_wraps Kind.i16 Kind.u8 rfl rfl (by decide) 768
    (by decide)
  exact h.1.trans (by decide)

/-- C6: converting a well-formed value of any numeric kind to the kind
itself yields the value unchanged. -/
theorem self_cast_identity (k : Kind) (hk : k.numeric = true) (v : Value)
    (hv : v.wf k) : primitiveFrom k k v = some v := by
  have hsup := supported_numeric_total k k hk hk
  cases v with
  | int n =>
      have hki : k.isInt = true := hv.1
      rw [primitiveFrom_int_int k k hki hki n, wrapTo_id k n hv.2]
  | fp x =>
      have hkf : k.isFloat = true := hv.1
      have hki := isInt_eq_false_of_isFloat k hkf
      simp [primitiveFrom, hsup, hkf, hki]
  | bool b =>
      have hb : k = Kind.bool := hv
      rw [hb] at hk
      simp [Kind.numeric, Kind.isInt, Kind.isFloat] at hk
  | char c =>
      have hc : k = Kind.char := hv.1
      rw [hc] at hk
      simp [Kind.numeric, Kind.isInt, Kind.isFloat] at hk

/-- Witness for C6 at the i32 value -5. -/
theorem self_cast_identity_witness :
    primitiveFrom Kind.i32 Kind.i32 (.int (-5)) = some (.int (-5)) :=
  self_cast_identity Kind.i32 rfl (.int (-5)) (by decide)

/-- C7: for integer kinds with `width s ≤ width t`, casting s → t and then
t → s returns the original value (round-trip law for non-lossy widening;
it holds for every signedness combination). -/
theorem widening_roundtrip (s t : Kind) (hs : s.isInt = true)
    (ht : t.isInt = true) (hw : width s ≤ width t) (v : Int)
    (hv : inRange s v) :
    (primitiveFrom s t (.int v)).bind (primitiveFrom t s) = some (.int v) := by
  rw [primitiveFrom_int_int s t hs ht v]
  show primitiveFrom t s (.int (wrapTo t v)) = some (.int v)
  rw [primitiveFrom_int_int t s ht hs, wrapTo_wrapTo s t hw v, wrapTo_id s v hv]

/-- Witness for C7: u8 value 200 widens to i16 and returns intact. -/
theorem widening_roundtrip_witness :
    (primitiveFrom Kind.u8 Kind.i16 (.int 200)).bind
      (primitiveFrom Kind.i16 Kind.u8) = some (.int 200) :=
  widening_roundtrip Kind.u8 Kind.i16 rfl rfl (by decide) 200 (by decide)

/-- C8: for every integer target kind the bool cast sends true to 1 and
false to 0. -/
theorem bool_to_int_cast (t : Kind) (ht : t.isInt = true) :
    primitiveFrom Kind.bool t (.bool true) = some (.int 1) ∧
    primitiveFrom Kind.bool t (.bool false) = some (.int 0) := by
  have hsup := supported_bool_int t ht
  constructor <;> simp [primitiveFrom, hsup, ht]

/-- Witness for C8 at the u64 target. -/
theorem bool_to_int_cast_witness :
    primitiveFrom Kind.bool Kind.u64 (.bool true) = some (.int 1) ∧
    primitiveFrom Kind.bool Kind.u64 (.bool false) = some (.int 0) :=
  bool_to_int_cast Kind.u64 rfl

/-- C9: no impl exists from either float kind into bool or char, nor
between bool and char in either direction; accordingly the conversion
function is undefined (`none`) on those pairs for every input value — the
rejection is by absence from the impl table, not a runtime error value. -/
theorem no_float_bool_char_impls :
    supported Kind.f32 Kind.bool = false ∧ supported Kind.f64 Kind.bool = false ∧
    supported Kind.f32 Kind.char = false ∧ supported Kind.f64 Kind.char = false ∧
    supported Kind.bool Kind.char = false ∧ supported Kind.char Kind.bool = false ∧
    (∀ v : Value, primitiveFrom Kind.f32 Kind.bool v = none) ∧
    (∀ v : Value, primitiveFrom Kind.f64 Kind.bool v = none) ∧
    (∀ v : Value, primitiveFrom Kind.f32 Kind.char v = none) ∧
    (∀ v : Value, primitiveFrom Kind.f64 Kind.char v = none) ∧
    (∀ v : Value, primitiveFrom Kind.bool Kind.char v = none) ∧
    (∀ v : Value, primitiveFrom Kind.char Kind.bool v = none) :=
  ⟨rfl, rfl, rfl, rfl, rfl, rfl,
    fun _ => rfl, fun _ => rfl, fun _ => rfl,
    fun _ => rfl, fun _ => rfl, fun _ => rfl⟩

/-- C10: the impl table defines u8 → char (a pair outside the numeric
set), and the cast of an in-range value yields the character whose code
point equals the value, a well-formed Unicode scalar value. -/
theorem u8_to_char_cast (v : Int) (h0 : 0 ≤ v) (h1 : v < 256) :
    supported Kind.u8 Kind.char = true ∧
    primitiveFrom Kind.u8 Kind.char (.int v) = some (.char v.toNat) ∧
    (v.toNat : Int) = v ∧
    Value.wf Kind.char (.char v.toNat) :=
  ⟨rfl, rfl, Int.toNat_of_nonneg h0, rfl, Or.inl (by omega)⟩

/-- Witness for C10 at the u8 value 65 (code point of 'A'). -/
theorem u8_to_char_cast_witness :
    primitiveFrom Kind.u8 Kind.char (.int 65) = some (.char 65) := by
  have h := u8_to_char_cast 65 (by decide) (by decide)
  exact h.2.1.trans (by decide)

/-- C1: float-to-integer casts saturate: NaN maps to 0, infinities map to
the target bounds, and a finite value whose truncation toward zero exceeds
the target maximum (or is below the target minimum) maps to that boundary
value — never an undefined or wrapped result. -/
theorem float_to_int_saturates (s t : Kind) (hs : s.isFloat = true)
    (ht : t.isInt = true) (m e : Int) :
    primitiveFrom s t (.fp .nan) = some (.int 0) ∧
    primitiveFrom s t (.fp (.inf false)) = some (.int (kindMax t)) ∧
    primitiveFrom s t (.fp (.inf true)) = some (.int (kindMin t)) ∧
    (kindMax t < Fp.trunc (.finite m e) →
      primitiveFrom s t (.fp (.finite m e)) = some (.int (kindMax t))) ∧
    (Fp.trunc (.finite m e) < kindMin t →
      primitiveFrom s t (.fp (.finite m e)) = some (.int (kindMin t))) := by
  have hsup := supported_float_int s t hs ht
  have hmm := kindMin_le_kindMax t
  refine ⟨?_, ?_, ?_, ?_, ?_⟩
  · simp [primitiveFrom, hsup, hs, ht, fpToIntCast]
  · simp [primitiveFrom, hsup, hs, ht, fpToIntCast]
  · simp [primitiveFrom, hsup, hs, ht, fpToIntCast]
  · intro h
    simp [primitiveFrom, hsup, hs, ht, fpToIntCast]
    omega
  · intro h
    simp [primitiveFrom, hsup, hs, ht, fpToIntCast]
    omega

/-- Witness for C1: the f64 value 1.04e17 (= 6500000000000000·2^4, exactly
representable) casts to u8 as 255, and f64 NaN casts to u8 as 0. -/
theorem float_to_int_saturates_witness :
    primitiveFrom Kind.f64 Kind.u8 (.fp (.finite 6500000000000000 4)) =
      some (.int 255) ∧
    primitiveFrom Kind.f64 Kind.u8 (.fp .nan) = some (.int 0) := by
  have h := float_to_int_saturates Kind.f64 Kind.u8 rfl rfl 6500000000000000 4
  exact ⟨(h.2.2.2.1 (by decide)).trans (by decide), h.1⟩

/-- C4: a float-to-integer cast of a finite value whose truncation toward
zero lies within the target range yields exactly that truncation. -/
theorem float_to_int_truncates (s t : Kind) (hs : s.isFloat = true)
    (ht : t.isInt = true) (m e : Int)
    (hwf : Fp.wf (fmtOf s) (.finite m e))
    (h1 : kindMin t ≤ Fp.trunc (.finite m e))
    (h2 : Fp.trunc (.finite m e) ≤ kindMax t) :
    primitiveFrom s t (.fp (.finite m e)) =
      some (.int (Fp.trunc (.finite m e))) := by
  have hsup := supported_float_int s t hs ht
  simp [primitiveFrom, hsup, hs, ht, fpToIntCast]
  omega

/-- Witness for C4: the f32 value nearest 3.14159265, namely
13176795·2^-22 = 3.14159274…, casts to i32 as 3. -/
theorem float_to_int_truncates_witness :
    primitiveFrom Kind.f32 Kind.i32 (.fp (.finite 13176795 (-22))) =
      some (.int 3) := by
  have h := float_to_int_truncates Kind.f32 Kind.i32 rfl rfl 13176795 (-22)
    (by decide) (by decide) (by decide)
  exact h.trans (by decide)

/-- C5: the f64 → f32 narrowing cast rounds to the nearest f32 value: the
f64 value 1.625 = 7318349394477056·2^-52 maps to 13631488·2^-23, exactly
1.625 again (the scaled identity 13631488·2^29 = 7318349394477056 states
value equality), and the f64 value nearest π, 7074237752028440·2^-51,
maps to the canonical f32 value 13176795·2^-22 = 3.1415927…, which the
final two inequalities show is at least as close to the input as either
neighbouring f32 candidate. -/
theorem f64_to_f32_narrowing_examples :
    primitiveFrom Kind.f64 Kind.f32 (.fp (.finite 7318349394477056 (-52))) =
      some (.fp (.finite 13631488 (-23))) ∧
    (13631488 : Int) * 2 ^ 29 = 7318349394477056 ∧
    primitiveFrom Kind.f64 Kind.f32 (.fp (.finite 7074237752028440 (-51))) =
      some (.fp (.finite 13176795 (-22))) ∧
    Fp.wf fmt32 (.finite 13176795 (-22)) ∧
    ((13176795 : Int) * 2 ^ 29 - 7074237752028440).natAbs ≤
      ((7074237752028440 : Int) - 13176794 * 2 ^ 29).natAbs ∧
    ((13176795 : Int) * 2 ^ 29 - 7074237752028440).natAbs ≤
      ((13176796 : Int) * 2 ^ 29 - 7074237752028440).natAbs := by
  decide

end PrimitiveFromSpec
